import Mathlib

/-!
Verification of the tensorflow excerpt: a shallow embedding of
`tensorflow/compiler/xla/service/local_service.cc` (Part A), and a model of
the coordination service / preemption sync manager described by the design
spec, whose implementation files are referenced only from build manifests
(Part B).
-/

namespace LocalServiceModel

/-- Status codes of the xla Status values produced in local_service.cc. -/
inductive XlaError where
  | invalidArgument (msg : String)
  | internal (msg : String)
  | other (msg : String)
  deriving DecidableEq, Repr

/-- OpMetadata proto fields read by the metadata_string lambda in
GetHloModuleConfig. -/
structure OpMetadata where
  source_file : String
  source_line : Int
  deriving DecidableEq, Repr

/-- HloInstructionProto fields read by ParameterMetadata; `metadata = none`
models `has_metadata() == false`. -/
structure HloInstructionProto where
  opcode : String
  parameter_number : Int
  metadata : Option OpMetadata
  deriving DecidableEq, Repr

/-- HloComputationProto fields read by ParameterMetadata. -/
structure HloComputationProto where
  id : Nat
  instructions : List HloInstructionProto
  deriving DecidableEq, Repr

/-- Shapes are opaque to local_service.cc: every operation on them is
delegated to ShapeUtil, kept abstract in `Env` below. -/
structure Shape where
  tag : Nat
  deriving DecidableEq, Repr

/-- ProgramShape: parameter shapes and result shape of the computation. -/
structure ProgramShape where
  parameters : List Shape
  result : Shape
  deriving DecidableEq, Repr

/-- HloModuleProto fields read by local_service.cc; `host_program_shape =
none` models `has_host_program_shape() == false`. -/
structure HloModuleProto where
  computations : List HloComputationProto
  entry_computation_id : Nat
  host_program_shape : Option ProgramShape
  deriving DecidableEq, Repr

/-- XlaComputation is a wrapper around its HloModuleProto. -/
structure XlaComputation where
  proto : HloModuleProto
  deriving DecidableEq, Repr

/-- Inner loop of ParameterMetadata: the first instruction of the
computation whose opcode is "parameter" and whose parameter number matches,
exactly as the C++ loop scans `comp.instructions()`. -/
def findParamInstr (parameter_number : Int) :
    List HloInstructionProto → Option HloInstructionProto
  | [] => none
  | instr :: rest =>
    if instr.opcode = "parameter" ∧ instr.parameter_number = parameter_number
    then some instr
    else findParamInstr parameter_number rest

/-- Outer loop of ParameterMetadata over `computation.proto().computations()`:
only computations whose id equals the entry computation id are scanned; a
matching instruction without metadata returns nullopt immediately, a matching
instruction with metadata returns a (non-null) pointer to it. -/
def parameterMetadataGo (entryId : Nat) (parameter_number : Int) :
    List HloComputationProto → Option (Option OpMetadata)
  | [] => none
  | comp :: rest =>
    if comp.id = entryId then
      match findParamInstr parameter_number comp.instructions with
      | some instr =>
        match instr.metadata with
        | none => none
        | some m => some (some m)
      | none => parameterMetadataGo entryId parameter_number rest
    else parameterMetadataGo entryId parameter_number rest

/-- Embedding of the anonymous-namespace helper `ParameterMetadata` in
local_service.cc. The C++ return type is `std::optional<const OpMetadata*>`:
the outer `Option` is the `std::optional`, the inner `Option` models pointer
nullability (`none` = nullptr). The source only ever wraps `&instr.metadata()`,
an address of a member, so a held nullptr is unrepresentable. -/
def ParameterMetadata (computation : XlaComputation) (parameter_number : Int) :
    Option (Option OpMetadata) :=
  parameterMetadataGo computation.proto.entry_computation_id parameter_number
    computation.proto.computations

/-- StreamExecutor handles are opaque to local_service.cc. -/
structure StreamExecutor where
  ordinal : Nat
  deriving DecidableEq, Repr

/-- Compiled executables are opaque values produced by the builder. -/
structure Executable where
  tag : Nat
  deriving DecidableEq, Repr

/-- AOT compilation results are opaque values produced by the builder. -/
structure AotCompilationResult where
  tag : Nat
  deriving DecidableEq, Repr

/-- HloModuleConfig values are opaque to the control flow under study. -/
structure HloModuleConfig where
  tag : Nat
  deriving DecidableEq, Repr

/-- ExecutionOptions values are opaque to the control flow under study. -/
structure ExecutionOptions where
  tag : Nat
  deriving DecidableEq, Repr

/-- The ExecutableBuildOptions fields read by local_service.cc
(`result_layout()` may be null, modelled as `Option`). -/
structure ExecutableBuildOptions where
  result_layout : Option Shape
  num_partitions : Nat
  device_ordinal : Int
  run_backend_only : Bool
  deriving DecidableEq, Repr

/-- GlobalDataHandle is an opaque handle resolved by the allocation tracker. -/
structure GlobalDataHandle where
  handle : Nat
  deriving DecidableEq, Repr

/-- ShapedBuffer values are opaque to local_service.cc. -/
structure ShapedBuffer where
  tag : Nat
  deriving DecidableEq, Repr, Inhabited

/-- External collaborators of local_service.cc (ShapeUtil, hlo_module_util,
the Service builder entry points and the allocation tracker), kept abstract:
the theorems below are about the control flow of local_service.cc and hold
for every implementation of these collaborators. -/
structure Env where
  validateShapeWithOptionalLayout : Shape → Except XlaError Unit
  compatible : Shape → Shape → Bool
  validateResultShape : Shape → Shape → Except XlaError Unit
  createExecutionOptions : ExecutableBuildOptions → ProgramShape → ExecutionOptions
  createModuleConfig :
    ProgramShape → List Shape → ExecutionOptions → Except XlaError HloModuleConfig
  streamExecutor : Int → Except XlaError StreamExecutor
  buildExecutable :
    HloModuleProto → HloModuleConfig → StreamExecutor → Bool → Except XlaError Executable
  buildExecutables :
    List HloModuleProto → List HloModuleConfig → List (List StreamExecutor) → Bool →
      Except XlaError (List Executable)
  buildAotResults :
    List HloModuleProto → List HloModuleConfig → List (List StreamExecutor) → Bool →
      Except XlaError (List AotCompilationResult)
  resolve : GlobalDataHandle → Except XlaError (List ShapedBuffer)

/-- The metadata_string lambda of GetHloModuleConfig: empty unless the
parameter's metadata carries a source file. The `some none` branch is the
CHECK(metadata.value() != nullptr) path, proved unreachable below. -/
def metadataString (computation : XlaComputation) (i : Int) : String :=
  match ParameterMetadata computation i with
  | none => ""
  | some none => ""
  | some (some m) =>
    if m.source_file ≠ "" then
      " (" ++ m.source_file ++ ":" ++ toString m.source_line ++ ")"
    else ""

/-- The argument-validation loop of GetHloModuleConfig: for each argument,
validate the shape (propagating the validation error), then check
compatibility against the corresponding parameter shape, returning
InvalidArgument at the first incompatibility. The two lists have equal
length whenever the loop is reached. -/
def validateArgumentLayouts (env : Env) (computation : XlaComputation) :
    Nat → List Shape → List Shape → Except XlaError Unit
  | _, [], _ => .ok ()
  | _, _ :: _, [] => .ok ()
  | i, arg :: args, param :: params =>
    match env.validateShapeWithOptionalLayout arg with
    | .error e => .error e
    | .ok _ =>
      if env.compatible arg param then
        validateArgumentLayouts env computation (i + 1) args params
      else
        .error (.invalidArgument
          ("Invalid argument shape for argument " ++ toString i ++
            metadataString computation (Int.ofNat i) ++ "."))

/-- Embedding of LocalService::GetHloModuleConfig: RET_CHECK on the host
program shape, the argument-count check, the per-argument validation loop,
optional result-layout validation, then module-config creation. -/
def GetHloModuleConfig (env : Env) (computation : XlaComputation)
    (argument_layouts : List Shape) (build_options : ExecutableBuildOptions) :
    Except XlaError HloModuleConfig :=
  match computation.proto.host_program_shape with
  | none => .error (.internal "RET_CHECK failure: proto.has_host_program_shape")
  | some program_shape =>
    if argument_layouts.length ≠ program_shape.parameters.length then
      .error (.invalidArgument
        ("Invalid number of arguments for computation: expected " ++
          toString program_shape.parameters.length ++ ", got " ++
          toString argument_layouts.length ++ "."))
    else
      match validateArgumentLayouts env computation 0 argument_layouts
          program_shape.parameters with
      | .error e => .error e
      | .ok _ =>
        match
          (match build_options.result_layout with
           | some r => env.validateResultShape r program_shape.result
           | none => .ok ()) with
        | .error e => .error e
        | .ok _ =>
          env.createModuleConfig program_shape argument_layouts
            (env.createExecutionOptions build_options program_shape)

/-- Embedding of LocalService::CompileExecutables: module config, stream
executor, then the single-partition BuildExecutable special case producing a
one-element vector, or the general BuildExecutables path called with
num_partitions copies of the same executor. -/
def CompileExecutables (env : Env) (computation : XlaComputation)
    (argument_layouts : List Shape) (build_options : ExecutableBuildOptions) :
    Except XlaError (List Executable) :=
  match GetHloModuleConfig env computation argument_layouts build_options with
  | .error e => .error e
  | .ok module_config =>
    match env.streamExecutor build_options.device_ordinal with
    | .error e => .error e
    | .ok executor =>
      if build_options.num_partitions = 1 then
        match env.buildExecutable computation.proto module_config executor
            build_options.run_backend_only with
        | .error e => .error e
        | .ok executable => .ok [executable]
      else
        env.buildExecutables [computation.proto] [module_config]
          [List.replicate build_options.num_partitions executor]
          build_options.run_backend_only

/-- Embedding of LocalService::CompileAotResults: module config, stream
executor, then BuildAotResults with num_partitions copies of the executor. -/
def CompileAotResults (env : Env) (computation : XlaComputation)
    (argument_layouts : List Shape) (build_options : ExecutableBuildOptions) :
    Except XlaError (List AotCompilationResult) :=
  match GetHloModuleConfig env computation argument_layouts build_options with
  | .error e => .error e
  | .ok module_config =>
    match env.streamExecutor build_options.device_ordinal with
    | .error e => .error e
    | .ok _executor =>
      env.buildAotResults [computation.proto] [module_config]
        [List.replicate build_options.num_partitions _executor]
        build_options.run_backend_only

/-- A concrete collaborator environment used to instantiate the theorems on
explicit inputs. -/
def envEx : Env where
  validateShapeWithOptionalLayout := fun _ => .ok ()
  compatible := fun a b => a.tag == b.tag
  validateResultShape := fun _ _ => .ok ()
  createExecutionOptions := fun _ _ => ⟨0⟩
  createModuleConfig := fun _ _ _ => .ok ⟨0⟩
  streamExecutor := fun _ => .ok ⟨0⟩
  buildExecutable := fun _ _ _ _ => .ok ⟨1⟩
  buildExecutables := fun _ _ _ _ => .ok [⟨2⟩, ⟨3⟩]
  buildAotResults := fun _ _ _ _ => .ok [⟨4⟩]
  resolve := fun _ => .ok [⟨0⟩]

/-- A computation with one parameter whose parameter instruction carries no
metadata, used to instantiate the theorems. -/
def compEx : XlaComputation :=
  ⟨⟨[⟨0, [⟨"parameter", 0, none⟩]⟩], 0, some ⟨[⟨0⟩], ⟨9⟩⟩⟩⟩

/-- A computation with no parameters, used to instantiate the theorems. -/
def compEx0 : XlaComputation := ⟨⟨[], 0, some ⟨[], ⟨9⟩⟩⟩⟩

/-- Build options selecting a single partition. -/
def boEx : ExecutableBuildOptions := ⟨none, 1, 0, false⟩

/-- Build options selecting two partitions. -/
def boEx2 : ExecutableBuildOptions := ⟨none, 2, 0, false⟩

/-- C++ usual arithmetic conversion applied in
`replica_number >= buffers.size()`: the signed int operand is converted to
the unsigned 64-bit size_t, i.e. reduced modulo 2^64. -/
def intToSizeT (i : Int) : Nat := (i.emod (2 ^ 64)).toNat

/-- Embedding of LocalService::GlobalDataToShapedBuffer: resolve the handle,
then the range check `replica_number >= buffers.size()` (with the C++
signed-to-unsigned conversion) guarding `buffers[replica_number]`, whose
index is likewise converted to size_t. -/
def GlobalDataToShapedBuffer (env : Env) (data : GlobalDataHandle)
    (replica_number : Int) : Except XlaError ShapedBuffer :=
  match env.resolve data with
  | .error e => .error e
  | .ok buffers =>
    if intToSizeT replica_number ≥ buffers.length then
      .error (.invalidArgument
        ("replica_number " ++ toString replica_number ++
          " out of range; must be less than num_replicas = " ++
          toString buffers.length ++ "."))
    else
      .ok (buffers.getD (intToSizeT replica_number) default)

end LocalServiceModel

namespace CoordinationModel

/-- Modelled from the spec: task identity = (job name, task index) (§3 Task);
the coordination-service implementation is referenced only from the build
manifest, so the whole model in this namespace follows the spec text. -/
structure TaskId where
  job : String
  index : Nat
  deriving DecidableEq, Repr

/-- Modelled from the spec: barrier result status, §3 Barrier:
passed, failed-timeout, failed-mismatch (pending = not yet resolved). -/
inductive BarrierResult where
  | passed
  | failedTimeout
  | failedMismatch
  deriving DecidableEq, Repr

/-- Modelled from the spec: error taxonomy of §7. -/
inductive CoordError where
  | notFound
  | alreadyExists
  | aborted
  | deadlineExceeded
  | failedPrecondition
  deriving DecidableEq, Repr

/-- Modelled from the spec: per-task registration status (§3 Task). -/
inductive TaskState where
  | registered
  | disconnected
  | error
  deriving DecidableEq, Repr

/-- Modelled from the spec: Task record attributes (§3 Task): registration
status, incarnation id, last-heartbeat timestamp. -/
structure TaskRec where
  state : TaskState
  incarnation : Nat
  lastHeartbeat : Nat
  deriving DecidableEq, Repr

/-- Modelled from the spec: an in-flight barrier (§3 Barrier): ordered list
of expected participants, arrival list, parked waiters, absolute deadline,
and the result once resolved (`none` = pending). -/
structure Barrier where
  expected : List TaskId
  arrived : List TaskId
  waiters : List TaskId
  deadline : Nat
  result : Option BarrierResult
  deriving DecidableEq, Repr

/-- Modelled from the spec: the CoordinationService state relevant to the
claims (§2, §4.1): the task registry, the barrier table keyed by name, and
the configured liveness timeout. All operations are serialized under the
service's single critical section (§5), so the model is a sequential state
machine. -/
structure ServiceState where
  tasks : List (TaskId × TaskRec)
  barriers : List (String × Barrier)
  livenessTimeout : Nat
  deriving DecidableEq, Repr

/-- Notification delivered to a waiter when its barrier resolves
(§4.1 BarrierAsync: the parked call is invoked with the result). -/
structure Notif where
  task : TaskId
  barrierName : String
  result : BarrierResult
  deriving DecidableEq, Repr

/-- Lookup of a barrier by name in the barrier table. -/
def findBarrier (name : String) : List (String × Barrier) → Option Barrier
  | [] => none
  | (n, b) :: rest => if n = name then some b else findBarrier name rest

/-- Insert-or-replace of a barrier in the barrier table. -/
def setBarrier (name : String) (b : Barrier) :
    List (String × Barrier) → List (String × Barrier)
  | [] => [(name, b)]
  | (n, c) :: rest =>
    if n = name then (name, b) :: rest else (n, c) :: setBarrier name b rest

/-- Lookup of a task record in the task registry. -/
def findTask (t : TaskId) : List (TaskId × TaskRec) → Option TaskRec
  | [] => none
  | (u, r) :: rest => if u = t then some r else findTask t rest

/-- Insert-or-replace of a task record in the task registry. -/
def setTask (t : TaskId) (r : TaskRec) :
    List (TaskId × TaskRec) → List (TaskId × TaskRec)
  | [] => [(t, r)]
  | (u, c) :: rest =>
    if u = t then (t, r) :: rest else (u, c) :: setTask t r rest

/-- Modelled from the spec: RegisterTask (§4.1): the first call for a task
creates the record; a call from an already-registered identity is a restart,
incrementing the incarnation and resetting heartbeat state. -/
def registerTask (s : ServiceState) (t : TaskId) (now : Nat) :
    ServiceState × Nat :=
  match findTask t s.tasks with
  | none =>
    ({ s with tasks := setTask t ⟨.registered, 1, now⟩ s.tasks }, 1)
  | some r =>
    ({ s with tasks := setTask t ⟨.registered, r.incarnation + 1, now⟩ s.tasks },
     r.incarnation + 1)

/-- Modelled from the spec: Heartbeat (§4.1): NotFound if the task was never
registered; Aborted if the incarnation does not match the currently recorded
one; otherwise ok, refreshing the last-heartbeat timestamp. -/
def heartbeat (s : ServiceState) (t : TaskId) (incarnation : Nat) (now : Nat) :
    ServiceState × Except CoordError Unit :=
  match findTask t s.tasks with
  | none => (s, .error .notFound)
  | some r =>
    if incarnation ≠ r.incarnation then (s, .error .aborted)
    else ({ s with tasks := setTask t { r with lastHeartbeat := now } s.tasks },
          .ok ())

/-- Modelled from the spec: BarrierAsync (§4.1, §3 Barrier): the first call
naming a barrier creates it with deadline now + timeout and registers the
arrival; the last expected arrival resolves the barrier "passed" and
notifies every waiter; a mismatched participant list resolves the barrier
"failed-mismatch" for all waiters (§7); any other arrival is parked; a call
arriving after resolution is answered with the stored result (the instance
is destroyed shortly after resolution, §3). -/
def barrierAsync (s : ServiceState) (now : Nat) (name : String)
    (caller : TaskId) (timeout : Nat) (participants : List TaskId) :
    ServiceState × List Notif :=
  match findBarrier name s.barriers with
  | none =>
    if participants.all (fun t => decide (t ∈ [caller])) then
      let nb : Barrier := ⟨participants, [caller], [], now + timeout, some .passed⟩
      ({ s with barriers := setBarrier name nb s.barriers },
       [⟨caller, name, .passed⟩])
    else
      let nb : Barrier := ⟨participants, [caller], [caller], now + timeout, none⟩
      ({ s with barriers := setBarrier name nb s.barriers }, [])
  | some b =>
    match b.result with
    | some r => (s, [⟨caller, name, r⟩])
    | none =>
      if participants ≠ b.expected then
        let nb : Barrier := { b with result := some .failedMismatch, waiters := [] }
        ({ s with barriers := setBarrier name nb s.barriers },
         (b.waiters ++ [caller]).map (fun t => ⟨t, name, .failedMismatch⟩))
      else
        if b.expected.all (fun t => decide (t ∈ b.arrived ++ [caller])) then
          let nb : Barrier := { b with arrived := b.arrived ++ [caller],
                                       waiters := [], result := some .passed }
          ({ s with barriers := setBarrier name nb s.barriers },
           (b.waiters ++ [caller]).map (fun t => ⟨t, name, .passed⟩))
        else
          let nb : Barrier := { b with arrived := b.arrived ++ [caller],
                                       waiters := b.waiters ++ [caller] }
          ({ s with barriers := setBarrier name nb s.barriers }, [])

/-- Modelled from the spec: a registered task is stale at `now` when its
time-since-last-heartbeat exceeds the configured timeout (§4.1 sweep). -/
def staleAt (timeout now : Nat) (r : TaskRec) : Bool :=
  decide (r.state = .registered) && decide (now - r.lastHeartbeat > timeout)

/-- Liveness pass of the sweep: stale registered tasks become disconnected. -/
def sweepTasks (timeout now : Nat) (tasks : List (TaskId × TaskRec)) :
    List (TaskId × TaskRec) :=
  tasks.map (fun p =>
    (p.1, if staleAt timeout now p.2 then { p.2 with state := .disconnected }
          else p.2))

/-- Whether the registry records the task as disconnected. -/
def taskDisconnected (tasks : List (TaskId × TaskRec)) (t : TaskId) : Bool :=
  match findTask t tasks with
  | some r => decide (r.state = .disconnected)
  | none => false

/-- Modelled from the spec: a pending barrier fails at the sweep when its
own deadline has elapsed (ties at the exact deadline favor timeout, §4.1) or
some expected participant is disconnected (fail-fast, §4.1 sweep). -/
def barrierShouldFail (tasks : List (TaskId × TaskRec)) (now : Nat)
    (b : Barrier) : Bool :=
  b.result.isNone &&
    (decide (now ≥ b.deadline) || b.expected.any (taskDisconnected tasks))

/-- Modelled from the spec: the background sweep (§4.1): transition stale
tasks to disconnected, then resolve "failed-timeout" every pending barrier
whose deadline has elapsed or whose expected participants include a
disconnected task, notifying all its waiters. -/
def sweep (s : ServiceState) (now : Nat) : ServiceState × List Notif :=
  ({ s with
      tasks := sweepTasks s.livenessTimeout now s.tasks,
      barriers := s.barriers.map (fun p =>
        if barrierShouldFail (sweepTasks s.livenessTimeout now s.tasks) now p.2
        then (p.1, { p.2 with result := some .failedTimeout, waiters := [] })
        else p) },
   List.flatten (s.barriers.map (fun p =>
     if barrierShouldFail (sweepTasks s.livenessTimeout now s.tasks) now p.2
     then p.2.waiters.map (fun t => ⟨t, p.1, .failedTimeout⟩)
     else [])))

/-- Sequential processing of a list of BarrierAsync arrivals for one barrier
name and participant list, collecting the notifications in order. -/
def processCalls (now : Nat) (name : String) (timeout : Nat)
    (participants : List TaskId) :
    ServiceState → List TaskId → ServiceState × List Notif
  | s, [] => (s, [])
  | s, t :: ts =>
    let r1 := barrierAsync s now name t timeout participants
    let r2 := processCalls now name timeout participants r1.1 ts
    (r2.1, r1.2 ++ r2.2)

/-- Modelled from the spec: PreemptionSyncManager decision state (§4.4):
either a cached cluster-agreed sync step (barrier passed), or a local-only
fallback where the preemption deadline itself is the trigger; a fatal flag
that the manager never sets on barrier failure (§7). -/
structure SyncManagerState where
  syncStep : Option Nat
  fallbackDeadline : Option Nat
  fatalError : Bool
  deriving DecidableEq, Repr

/-- Modelled from the spec: barrier agreement (§4.4): all participants agree
on the minimum of their current step counters as the sync step. -/
def agreeSyncStep : List Nat → Option Nat
  | [] => none
  | s :: rest => some (rest.foldl Nat.min s)

/-- Modelled from the spec: handling of the barrier outcome for a preemption
event with deadline d (§4.4): "passed" caches the agreed sync step;
"failed-timeout" and "failed-mismatch" fall back to a local-only decision
treating the deadline itself as the sync point trigger; neither failure is
fatal. -/
def onBarrierResolved (d : Nat) (agreed : Nat) : BarrierResult → SyncManagerState
  | .passed => ⟨some agreed, none, false⟩
  | .failedTimeout => ⟨none, some d, false⟩
  | .failedMismatch => ⟨none, some d, false⟩

/-- Modelled from the spec: ReachedSyncPoint (§4.4): true once current_step
has reached the cached sync step; under the fallback, true once the deadline
has passed. -/
def reachedSyncPoint (m : SyncManagerState) (currentStep : Nat) (now : Nat) :
    Bool :=
  match m.syncStep with
  | some k => decide (currentStep ≥ k)
  | none =>
    match m.fallbackDeadline with
    | some d => decide (now ≥ d)
    | none => false

/-- Concrete tasks used to instantiate the theorems. -/
def w0 : TaskId := ⟨"worker", 0⟩

/-- Concrete tasks used to instantiate the theorems. -/
def w1 : TaskId := ⟨"worker", 1⟩

/-- Concrete tasks used to instantiate the theorems. -/
def w2 : TaskId := ⟨"worker", 2⟩

/-- A fresh service state: empty registry, empty barrier table. -/
def freshState : ServiceState := ⟨[], [], 5⟩

/-- A service state with one registered task (no heartbeat since time 0) and
one pending barrier expecting it whose deadline is far away, used to
instantiate the liveness-sweep theorem. -/
def sweepStateEx : ServiceState :=
  ⟨[(w0, ⟨.registered, 1, 0⟩)], [("sync", ⟨[w0, w1], [w1], [w1], 100, none⟩)], 5⟩

end CoordinationModel


namespace LocalServiceModel

theorem findParamInstr_spec (n : Int) :
    ∀ (l : List HloInstructionProto) (instr : HloInstructionProto),
      findParamInstr n l = some instr →
      instr ∈ l ∧ instr.opcode = "parameter" ∧ instr.parameter_number = n := by
  intro l
  induction l with
  | nil => intro instr h; simp [findParamInstr] at h
  | cons a rest ih =>
    intro instr h
    simp only [findParamInstr] at h
    split at h
    · rename_i hc
      obtain rfl : a = instr := by injection h
      exact ⟨List.mem_cons_self a rest, hc.1, hc.2⟩
    · obtain ⟨h1, h2, h3⟩ := ih instr h
      exact ⟨List.mem_cons_of_mem a h1, h2, h3⟩

theorem parameterMetadataGo_ne_some_none (e : Nat) (n : Int) :
    ∀ l, parameterMetadataGo e n l ≠ some none := by
  intro l
  induction l with
  | nil => simp [parameterMetadataGo]
  | cons comp rest ih =>
    simp only [parameterMetadataGo]
    split
    · cases hfind : findParamInstr n comp.instructions with
      | none => simp only [hfind]; exact ih
      | some instr =>
        cases hm : instr.metadata with
        | none => simp [hfind, hm]
        | some m => simp [hfind, hm]
    · exact ih

theorem parameterMetadataGo_none (e : Nat) (n : Int) :
    ∀ l, (∀ comp ∈ l, comp.id = e →
        ∀ instr ∈ comp.instructions, instr.opcode = "parameter" →
          instr.parameter_number = n → instr.metadata = none) →
      parameterMetadataGo e n l = none := by
  intro l
  induction l with
  | nil => intro _; rfl
  | cons comp rest ih =>
    intro hyp
    simp only [parameterMetadataGo]
    split
    · rename_i hid
      cases hfind : findParamInstr n comp.instructions with
      | none =>
        simp only [hfind]
        exact ih fun comp2 h2 => hyp comp2 (List.mem_cons_of_mem _ h2)
      | some instr =>
        obtain ⟨hmem, hop, hnum⟩ := findParamInstr_spec n comp.instructions instr hfind
        have hmd := hyp comp (List.mem_cons_self _ _) hid instr hmem hop hnum
        simp [hfind, hmd]
    · exact ih fun comp2 h2 => hyp comp2 (List.mem_cons_of_mem _ h2)

/-- C8: ParameterMetadata never holds a null pointer, so the
CHECK(metadata.value() != nullptr) in GetHloModuleConfig's shape-error
reporting path cannot fire, and it returns nullopt whenever every parameter
instruction carrying the given number in the entry computation has no
metadata — in particular when there is no such instruction at all. -/
theorem parameterMetadata_c8 (c : XlaComputation) (n : Int) :
    (∀ v, ParameterMetadata c n = some v → v ≠ none) ∧
    ((∀ comp ∈ c.proto.computations,
        comp.id = c.proto.entry_computation_id →
        ∀ instr ∈ comp.instructions, instr.opcode = "parameter" →
          instr.parameter_number = n → instr.metadata = none) →
      ParameterMetadata c n = none) := by
  constructor
  · intro v hv hvnone
    subst hvnone
    exact parameterMetadataGo_ne_some_none _ _ _ hv
  · intro hyp
    exact parameterMetadataGo_none _ _ _ hyp

theorem parameterMetadata_c8_witness :
    ParameterMetadata compEx 0 = none :=
  (parameterMetadata_c8 compEx 0).2 (by decide)

/-- C9 counterexample: with a single resolved buffer and replica_number = -1
the claim's signed bound check does not trigger (-1 < 1, so the claim
predicts the indexing branch), yet the code returns InvalidArgument: the C++
comparison converts the signed replica number to size_t, so the lower bound
is effectively checked as well and the indexing is never reached. -/
theorem globalDataToShapedBuffer_c9_counterexample :
    ¬((-1 : Int) ≥ (1 : Int)) ∧
    GlobalDataToShapedBuffer envEx ⟨0⟩ (-1) =
      .error (.invalidArgument
        "replica_number -1 out of range; must be less than num_replicas = 1.") := by
  constructor
  · decide
  · rfl

/-- C9 amended: GlobalDataToShapedBuffer returns InvalidArgument whenever
replica_number converted to size_t (as the C++ comparison does) reaches the
buffer count — in particular for every negative 32-bit replica_number and
any buffer count up to 2^63 — and otherwise returns the buffer at the
converted index; the check itself keeps the index in range, so no separate
replica_number ≥ 0 precondition is needed. -/
theorem globalDataToShapedBuffer_c9_amended (env : Env)
    (data : GlobalDataHandle) (r : Int) (buffers : List ShapedBuffer)
    (hres : env.resolve data = .ok buffers) :
    (intToSizeT r ≥ buffers.length →
      ∃ msg, GlobalDataToShapedBuffer env data r =
        .error (.invalidArgument msg)) ∧
    (intToSizeT r < buffers.length →
      GlobalDataToShapedBuffer env data r =
        .ok (buffers.getD (intToSizeT r) default)) ∧
    (r < 0 → -(2 ^ 31) ≤ r → buffers.length ≤ 2 ^ 63 →
      ∃ msg, GlobalDataToShapedBuffer env data r =
        .error (.invalidArgument msg)) := by
  have herr : intToSizeT r ≥ buffers.length →
      ∃ msg, GlobalDataToShapedBuffer env data r =
        .error (.invalidArgument msg) := by
    intro h
    unfold GlobalDataToShapedBuffer
    simp only [hres]
    rw [if_pos h]
    exact ⟨_, rfl⟩
  refine ⟨herr, ?_, ?_⟩
  · intro h
    unfold GlobalDataToShapedBuffer
    simp only [hres]
    rw [if_neg (by omega)]
  · intro hneg hlow hlen
    refine herr ?_
    unfold intToSizeT
    have h64 : (2 : Int) ^ 64 = 18446744073709551616 := by norm_num
    have h31 : (2 : Int) ^ 31 = 2147483648 := by norm_num
    have h63 : (2 : Nat) ^ 63 = 9223372036854775808 := by norm_num
    rw [h31] at hlow
    rw [h63] at hlen
    have hem : r.emod (2 ^ 64) = r + 2 ^ 64 := by
      have h2 : (r + 2 ^ 64 * 1).emod (2 ^ 64) = r.emod (2 ^ 64) :=
        Int.add_mul_emod_self_left r (2 ^ 64) 1
      have h3 : r + 2 ^ 64 * 1 = r + 2 ^ 64 := by ring
      rw [h3] at h2
      rw [← h2]
      refine Int.emod_eq_of_lt ?_ ?_ <;> rw [h64] <;> omega
    rw [hem, h64]
    omega

theorem globalDataToShapedBuffer_c9_amended_witness :
    GlobalDataToShapedBuffer envEx ⟨0⟩ 0 = .ok ⟨0⟩ := by
  have h := (globalDataToShapedBuffer_c9_amended envEx ⟨0⟩ 0 [⟨0⟩] rfl).2.1
    (by decide)
  exact h.trans rfl

/-- C10: when GetHloModuleConfig and the executor lookup succeed,
CompileExecutables with num_partitions = 1 takes the single BuildExecutable
path — so a successful result holds exactly one executable — and with any
other partition count it calls BuildExecutables with num_partitions copies
of the same stream executor. -/
theorem compileExecutables_c10 (env : Env) (c : XlaComputation)
    (args : List Shape) (bo : ExecutableBuildOptions)
    (cfg : HloModuleConfig) (executor : StreamExecutor)
    (hcfg : GetHloModuleConfig env c args bo = .ok cfg)
    (hexec : env.streamExecutor bo.device_ordinal = .ok executor) :
    (bo.num_partitions = 1 →
      (∀ execs, CompileExecutables env c args bo = .ok execs →
        execs.length = 1) ∧
      CompileExecutables env c args bo =
        (match env.buildExecutable c.proto cfg executor bo.run_backend_only with
         | .error e => .error e
         | .ok ex => .ok [ex])) ∧
    (bo.num_partitions ≠ 1 →
      CompileExecutables env c args bo =
        env.buildExecutables [c.proto] [cfg]
          [List.replicate bo.num_partitions executor]
          bo.run_backend_only) := by
  unfold CompileExecutables
  simp only [hcfg, hexec]
  constructor
  · intro h1
    rw [if_pos h1]
    constructor
    · intro execs hexecs
      cases hbe : env.buildExecutable c.proto cfg executor bo.run_backend_only with
      | error e => simp only [hbe] at hexecs; exact absurd hexecs (by simp)
      | ok ex =>
        simp only [hbe] at hexecs
        obtain rfl : [ex] = execs := by injection hexecs
        rfl
    · rfl
  · intro h1
    rw [if_neg h1]

theorem compileExecutables_c10_witness :
    CompileExecutables envEx compEx0 [] boEx = .ok [⟨1⟩] := by
  have h := ((compileExecutables_c10 envEx compEx0 [] boEx ⟨0⟩ ⟨0⟩ rfl rfl).1
    rfl).2
  exact h.trans rfl

theorem validateArgumentLayouts_ok (env : Env) (c : XlaComputation) :
    ∀ (args params : List Shape) (i : Nat),
      validateArgumentLayouts env c i args params = .ok () →
      ∀ j (hj : j < args.length) (hp : j < params.length),
        env.validateShapeWithOptionalLayout (args.get ⟨j, hj⟩) = .ok () ∧
        env.compatible (args.get ⟨j, hj⟩) (params.get ⟨j, hp⟩) = true := by
  intro args
  induction args with
  | nil =>
    intro params i h j hj hp
    exact absurd hj (by simp)
  | cons a args ih =>
    intro params i h j hj hp
    cases params with
    | nil => exact absurd hp (by simp)
    | cons p params =>
      simp only [validateArgumentLayouts] at h
      cases hv : env.validateShapeWithOptionalLayout a with
      | error e => simp only [hv] at h; exact absurd h (by simp)
      | ok u =>
        simp only [hv] at h
        by_cases hc : env.compatible a p = true
        · rw [if_pos hc] at h
          cases j with
          | zero =>
            cases u
            exact ⟨hv, hc⟩
          | succ j =>
            have hres := ih params (i + 1) h j (by simpa using hj)
              (by simpa using hp)
            simpa using hres
        · rw [if_neg hc] at h
          exact absurd h (by simp)

theorem validateArgumentLayouts_incompat (env : Env) (c : XlaComputation) :
    ∀ (args params : List Shape) (i : Nat),
      (∀ a ∈ args, env.validateShapeWithOptionalLayout a = .ok ()) →
      args.length = params.length →
      (∃ j, ∃ hj : j < args.length, ∃ hp : j < params.length,
        env.compatible (args.get ⟨j, hj⟩) (params.get ⟨j, hp⟩) = false) →
      ∃ msg, validateArgumentLayouts env c i args params =
        .error (.invalidArgument msg) := by
  intro args
  induction args with
  | nil =>
    intro params i hval hlen hex
    obtain ⟨j, hj, _⟩ := hex
    exact absurd hj (by simp)
  | cons a args ih =>
    intro params i hval hlen hex
    cases params with
    | nil => simp at hlen
    | cons p params =>
      have hva : env.validateShapeWithOptionalLayout a = .ok () :=
        hval a (List.mem_cons_self a args)
      simp only [validateArgumentLayouts, hva]
      by_cases hc : env.compatible a p = true
      · rw [if_pos hc]
        obtain ⟨j, hj, hp, hcomp⟩ := hex
        cases j with
        | zero =>
          simp only [List.get] at hcomp
          rw [hcomp] at hc
          exact absurd hc (by simp)
        | succ j =>
          refine ih params (i + 1)
            (fun x hx => hval x (List.mem_cons_of_mem a hx))
            (by simpa using hlen)
            ⟨j, by simpa using hj, by simpa using hp, by simpa using hcomp⟩
      · rw [if_neg hc]
        exact ⟨_, rfl⟩

theorem getHloModuleConfig_mismatch (env : Env) (c : XlaComputation)
    (args : List Shape) (bo : ExecutableBuildOptions) (ps : ProgramShape)
    (hps : c.proto.host_program_shape = some ps)
    (hlen : args.length ≠ ps.parameters.length) :
    ∃ msg, GetHloModuleConfig env c args bo = .error (.invalidArgument msg) := by
  unfold GetHloModuleConfig
  simp only [hps]
  rw [if_pos hlen]
  exact ⟨_, rfl⟩

theorem getHloModuleConfig_incompat (env : Env) (c : XlaComputation)
    (args : List Shape) (bo : ExecutableBuildOptions) (ps : ProgramShape)
    (hps : c.proto.host_program_shape = some ps)
    (hval : ∀ a ∈ args, env.validateShapeWithOptionalLayout a = .ok ())
    (hlen : args.length = ps.parameters.length)
    (hex : ∃ j, ∃ hj : j < args.length, ∃ hp : j < ps.parameters.length,
      env.compatible (args.get ⟨j, hj⟩) (ps.parameters.get ⟨j, hp⟩) = false) :
    ∃ msg, GetHloModuleConfig env c args bo = .error (.invalidArgument msg) := by
  unfold GetHloModuleConfig
  simp only [hps]
  rw [if_neg (by omega)]
  obtain ⟨msg, hmsg⟩ :=
    validateArgumentLayouts_incompat env c args ps.parameters 0 hval hlen hex
  exact ⟨msg, by simp [hmsg]⟩

theorem getHloModuleConfig_ok (env : Env) (c : XlaComputation)
    (args : List Shape) (bo : ExecutableBuildOptions) (ps : ProgramShape)
    (cfg : HloModuleConfig)
    (hps : c.proto.host_program_shape = some ps)
    (hok : GetHloModuleConfig env c args bo = .ok cfg) :
    args.length = ps.parameters.length ∧
    validateArgumentLayouts env c 0 args ps.parameters = .ok () := by
  unfold GetHloModuleConfig at hok
  simp only [hps] at hok
  by_cases hlen : args.length ≠ ps.parameters.length
  · rw [if_pos hlen] at hok
    exact absurd hok (by simp)
  · rw [if_neg hlen] at hok
    refine ⟨not_ne_iff.mp hlen, ?_⟩
    cases hv : validateArgumentLayouts env c 0 args ps.parameters with
    | error e => simp only [hv] at hok; exact absurd hok (by simp)
    | ok u => cases u; rfl

theorem compileExecutables_error_of_config (env : Env) (c : XlaComputation)
    (args : List Shape) (bo : ExecutableBuildOptions) (e : XlaError)
    (h : GetHloModuleConfig env c args bo = .error e) :
    CompileExecutables env c args bo = .error e ∧
    CompileAotResults env c args bo = .error e := by
  constructor
  · unfold CompileExecutables
    simp [h]
  · unfold CompileAotResults
    simp [h]

theorem compileExecutables_config_of_ok (env : Env) (c : XlaComputation)
    (args : List Shape) (bo : ExecutableBuildOptions)
    (execs : List Executable)
    (h : CompileExecutables env c args bo = .ok execs) :
    ∃ cfg, GetHloModuleConfig env c args bo = .ok cfg := by
  cases hcfg : GetHloModuleConfig env c args bo with
  | error e =>
    unfold CompileExecutables at h
    simp only [hcfg] at h
    exact absurd h (by simp)
  | ok cfg => exact ⟨cfg, rfl⟩

theorem compileAotResults_config_of_ok (env : Env) (c : XlaComputation)
    (args : List Shape) (bo : ExecutableBuildOptions)
    (results : List AotCompilationResult)
    (h : CompileAotResults env c args bo = .ok results) :
    ∃ cfg, GetHloModuleConfig env c args bo = .ok cfg := by
  cases hcfg : GetHloModuleConfig env c args bo with
  | error e =>
    unfold CompileAotResults at h
    simp only [hcfg] at h
    exact absurd h (by simp)
  | ok cfg => exact ⟨cfg, rfl⟩

/-- C1: CompileExecutables and CompileAotResults return InvalidArgument and
build nothing when the argument count differs from the computation's
parameter count, or when some argument shape (all of them well formed) is
incompatible with its parameter shape; an executable (or AOT result) list is
returned only when the argument count matches and every argument shape is
compatible with its parameter. -/
theorem compileExecutables_c1 (env : Env) (c : XlaComputation)
    (args : List Shape) (bo : ExecutableBuildOptions) (ps : ProgramShape)
    (hps : c.proto.host_program_shape = some ps) :
    (args.length ≠ ps.parameters.length →
      ∃ msg, CompileExecutables env c args bo = .error (.invalidArgument msg) ∧
        CompileAotResults env c args bo = .error (.invalidArgument msg)) ∧
    ((∀ a ∈ args, env.validateShapeWithOptionalLayout a = .ok ()) →
      args.length = ps.parameters.length →
      (∃ j, ∃ hj : j < args.length, ∃ hp : j < ps.parameters.length,
        env.compatible (args.get ⟨j, hj⟩) (ps.parameters.get ⟨j, hp⟩) = false) →
      ∃ msg, CompileExecutables env c args bo = .error (.invalidArgument msg) ∧
        CompileAotResults env c args bo = .error (.invalidArgument msg)) ∧
    (∀ execs, CompileExecutables env c args bo = .ok execs →
      args.length = ps.parameters.length ∧
      ∀ j (hj : j < args.length) (hp : j < ps.parameters.length),
        env.compatible (args.get ⟨j, hj⟩) (ps.parameters.get ⟨j, hp⟩) = true) ∧
    (∀ results, CompileAotResults env c args bo = .ok results →
      args.length = ps.parameters.length ∧
      ∀ j (hj : j < args.length) (hp : j < ps.parameters.length),
        env.compatible (args.get ⟨j, hj⟩) (ps.parameters.get ⟨j, hp⟩) = true) := by
  refine ⟨?_, ?_, ?_, ?_⟩
  · intro hlen
    obtain ⟨msg, hmsg⟩ := getHloModuleConfig_mismatch env c args bo ps hps hlen
    obtain ⟨h1, h2⟩ := compileExecutables_error_of_config env c args bo _ hmsg
    exact ⟨msg, h1, h2⟩
  · intro hval hlen hex
    obtain ⟨msg, hmsg⟩ :=
      getHloModuleConfig_incompat env c args bo ps hps hval hlen hex
    obtain ⟨h1, h2⟩ := compileExecutables_error_of_config env c args bo _ hmsg
    exact ⟨msg, h1, h2⟩
  · intro execs hok
    obtain ⟨cfg, hcfg⟩ :=
      compileExecutables_config_of_ok env c args bo execs hok
    obtain ⟨hlen, hvalok⟩ := getHloModuleConfig_ok env c args bo ps cfg hps hcfg
    exact ⟨hlen, fun j hj hp =>
      (validateArgumentLayouts_ok env c args ps.parameters 0 hvalok j hj hp).2⟩
  · intro results hok
    obtain ⟨cfg, hcfg⟩ :=
      compileAotResults_config_of_ok env c args bo results hok
    obtain ⟨hlen, hvalok⟩ := getHloModuleConfig_ok env c args bo ps cfg hps hcfg
    exact ⟨hlen, fun j hj hp =>
      (validateArgumentLayouts_ok env c args ps.parameters 0 hvalok j hj hp).2⟩

theorem compileExecutables_c1_witness :
    ∃ msg, CompileExecutables envEx compEx [] boEx =
        .error (.invalidArgument msg) ∧
      CompileAotResults envEx compEx [] boEx =
        .error (.invalidArgument msg) :=
  (compileExecutables_c1 envEx compEx [] boEx ⟨[⟨0⟩], ⟨9⟩⟩ rfl).1 (by decide)

end LocalServiceModel

namespace CoordinationModel

theorem findTask_setTask (t : TaskId) (r : TaskRec) :
    ∀ l, findTask t (setTask t r l) = some r := by
  intro l
  induction l with
  | nil => simp [setTask, findTask]
  | cons p rest ih =>
    obtain ⟨u, c⟩ := p
    by_cases h : u = t
    · simp [setTask, findTask, h]
    · simp [setTask, findTask, h, ih]

/-- C5: Heartbeat returns NotFound for a never-registered task, Aborted for
a stale (lower) incarnation leaving the state unchanged, and ok for the
currently recorded incarnation, refreshing the task's last-heartbeat
timestamp. -/
theorem heartbeat_c5 (s : ServiceState) (t : TaskId) (inc now : Nat) :
    (findTask t s.tasks = none →
      heartbeat s t inc now = (s, .error .notFound)) ∧
    (∀ r, findTask t s.tasks = some r → inc < r.incarnation →
      heartbeat s t inc now = (s, .error .aborted)) ∧
    (∀ r, findTask t s.tasks = some r → inc = r.incarnation →
      (heartbeat s t inc now).2 = .ok () ∧
      findTask t (heartbeat s t inc now).1.tasks =
        some { r with lastHeartbeat := now }) := by
  refine ⟨?_, ?_, ?_⟩
  · intro hnone
    unfold heartbeat
    simp [hnone]
  · intro r hr hlt
    unfold heartbeat
    have hne : inc ≠ r.incarnation := by omega
    simp [hr, hne]
  · intro r hr heq
    unfold heartbeat
    simp only [hr]
    rw [if_neg (by omega)]
    exact ⟨rfl, findTask_setTask t _ s.tasks⟩

theorem heartbeat_c5_witness :
    heartbeat freshState w0 1 3 = (freshState, .error .notFound) :=
  (heartbeat_c5 freshState w0 1 3).1 rfl

/-- C7: for a preemption event with deadline d the manager always reaches a
decision and never sets the fatal flag: on "passed" the agreed step is
cached and reachedSyncPoint holds once the current step reaches it; on
"failed-timeout" or "failed-mismatch" the deadline itself becomes the local
sync trigger. -/
theorem preemption_c7 (d agreed : Nat) (res : BarrierResult) :
    (onBarrierResolved d agreed res).fatalError = false ∧
    ((onBarrierResolved d agreed res).syncStep.isSome ∨
      (onBarrierResolved d agreed res).fallbackDeadline = some d) ∧
    (res = .passed →
      (onBarrierResolved d agreed res).syncStep = some agreed ∧
      ∀ cur now, cur ≥ agreed →
        reachedSyncPoint (onBarrierResolved d agreed res) cur now = true) ∧
    (res = .failedTimeout ∨ res = .failedMismatch →
      (onBarrierResolved d agreed res).fallbackDeadline = some d ∧
      ∀ cur now, now ≥ d →
        reachedSyncPoint (onBarrierResolved d agreed res) cur now = true) := by
  cases res with
  | passed =>
    refine ⟨rfl, Or.inl rfl, fun _ => ⟨rfl, fun cur now hcur => ?_⟩,
      fun h => by cases h <;> simp_all⟩
    simp [onBarrierResolved, reachedSyncPoint, hcur]
  | failedTimeout =>
    refine ⟨rfl, Or.inr rfl, fun h => by simp_all,
      fun _ => ⟨rfl, fun cur now hnow => ?_⟩⟩
    simp [onBarrierResolved, reachedSyncPoint, hnow]
  | failedMismatch =>
    refine ⟨rfl, Or.inr rfl, fun h => by simp_all,
      fun _ => ⟨rfl, fun cur now hnow => ?_⟩⟩
    simp [onBarrierResolved, reachedSyncPoint, hnow]

theorem preemption_c7_witness :
    reachedSyncPoint (onBarrierResolved 10 3 .passed) 3 0 = true :=
  ((preemption_c7 10 3 .passed).2.2.1 rfl).2 3 0 (by decide)

theorem findTask_sweepTasks (timeout now : Nat) (t : TaskId) :
    ∀ l, findTask t (sweepTasks timeout now l) =
      (findTask t l).map (fun r =>
        if staleAt timeout now r then { r with state := .disconnected }
        else r) := by
  intro l
  induction l with
  | nil => simp [sweepTasks, findTask]
  | cons p rest ih =>
    obtain ⟨u, c⟩ := p
    by_cases h : u = t
    · subst h
      simp [sweepTasks, findTask]
    · simpa [sweepTasks, findTask, h] using ih

/-- C6: a registered task whose time-since-last-heartbeat exceeds the
configured liveness timeout is transitioned to disconnected by the sweep,
and every pending barrier expecting it is resolved "failed-timeout" at the
same sweep, all its waiters notified, even while the barrier's own deadline
(hypothesis now < b.deadline) has not elapsed yet. -/
theorem sweep_c6 (s : ServiceState) (now : Nat) (t : TaskId) (r : TaskRec)
    (name : String) (b : Barrier)
    (hr : findTask t s.tasks = some r) (hreg : r.state = .registered)
    (hstale : now - r.lastHeartbeat > s.livenessTimeout)
    (hbmem : (name, b) ∈ s.barriers) (hpend : b.result = none)
    (hexp : t ∈ b.expected) (hdl : now < b.deadline) :
    findTask t (sweep s now).1.tasks = some { r with state := .disconnected } ∧
    (∀ w ∈ b.waiters,
      Notif.mk w name .failedTimeout ∈ (sweep s now).2) ∧
    (name, { b with result := some .failedTimeout, waiters := [] }) ∈
      (sweep s now).1.barriers := by
  have hstaleb : staleAt s.livenessTimeout now r = true := by
    unfold staleAt
    simp [hreg, hstale]
  have htasks : findTask t (sweepTasks s.livenessTimeout now s.tasks) =
      some { r with state := .disconnected } := by
    rw [findTask_sweepTasks]
    simp [hr, hstaleb]
  have hdisc : taskDisconnected (sweepTasks s.livenessTimeout now s.tasks) t
      = true := by
    unfold taskDisconnected
    rw [htasks]
    simp
  have hfail : barrierShouldFail (sweepTasks s.livenessTimeout now s.tasks)
      now b = true := by
    unfold barrierShouldFail
    rw [hpend]
    have hany : b.expected.any
        (taskDisconnected (sweepTasks s.livenessTimeout now s.tasks)) = true :=
      List.any_eq_true.mpr ⟨t, hexp, hdisc⟩
    simp [hany]
  refine ⟨htasks, ?_, ?_⟩
  · intro w hw
    show Notif.mk w name .failedTimeout ∈ List.flatten _
    apply List.mem_flatten.mpr
    refine ⟨b.waiters.map (fun x => ⟨x, name, .failedTimeout⟩), ?_, ?_⟩
    · apply List.mem_map.mpr
      exact ⟨(name, b), hbmem, by simp [hfail]⟩
    · exact List.mem_map_of_mem _ hw
  · show _ ∈ List.map _ s.barriers
    apply List.mem_map.mpr
    exact ⟨(name, b), hbmem, by simp [hfail]⟩

theorem sweep_c6_witness :
    findTask w0 (sweep sweepStateEx 10).1.tasks =
      some ⟨.disconnected, 1, 0⟩ ∧
    (∀ w ∈ ([w1] : List TaskId),
      Notif.mk w "sync" .failedTimeout ∈ (sweep sweepStateEx 10).2) ∧
    ("sync", (⟨[w0, w1], [w1], [], 100, some .failedTimeout⟩ : Barrier)) ∈
      (sweep sweepStateEx 10).1.barriers := by
  have h := sweep_c6 sweepStateEx 10 w0 ⟨.registered, 1, 0⟩ "sync"
    ⟨[w0, w1], [w1], [w1], 100, none⟩ (by decide) rfl (by decide) (by decide)
    rfl (by decide) (by decide)
  exact h

theorem barrierAsync_first (s : ServiceState) (now : Nat) (name : String)
    (timeout : Nat) (ts : List TaskId) (t : TaskId)
    (hb : s.barriers = []) (hin : ∃ w ∈ ts, w ≠ t) :
    barrierAsync s now name t timeout ts =
      ({ s with barriers := [(name, ⟨ts, [t], [t], now + timeout, none⟩)] },
       []) := by
  obtain ⟨w, hwts, hwt⟩ := hin
  have hall : ts.all (fun x => decide (x ∈ [t])) = false := by
    cases hcase : ts.all (fun x => decide (x ∈ [t])) with
    | false => rfl
    | true =>
      rw [List.all_eq_true] at hcase
      have h2 := hcase w hwts
      simp at h2
      exact absurd h2 hwt
  unfold barrierAsync
  rw [hb]
  simp [findBarrier, hall, setBarrier]
  exact ⟨w, hwts, hwt⟩

theorem barrierAsync_park (s : ServiceState) (now : Nat) (name : String)
    (timeout dl : Nat) (ts acc : List TaskId) (t : TaskId)
    (hb : s.barriers = [(name, ⟨ts, acc, acc, dl, none⟩)])
    (hin : ∃ w ∈ ts, w ∉ acc ++ [t]) :
    barrierAsync s now name t timeout ts =
      ({ s with barriers :=
          [(name, ⟨ts, acc ++ [t], acc ++ [t], dl, none⟩)] },
       []) := by
  obtain ⟨w, hwts, hwnot⟩ := hin
  have hall : ts.all (fun x => decide (x ∈ acc ++ [t])) = false := by
    cases hcase : ts.all (fun x => decide (x ∈ acc ++ [t])) with
    | false => rfl
    | true =>
      rw [List.all_eq_true] at hcase
      have h2 := hcase w hwts
      simp at h2
      simp [h2] at hwnot
  unfold barrierAsync
  rw [hb]
  simp [findBarrier, hall, setBarrier]
  simp only [List.mem_append, List.mem_singleton, not_or] at hwnot
  exact ⟨w, hwts, hwnot.1, hwnot.2⟩

theorem barrierAsync_final (s : ServiceState) (now : Nat) (name : String)
    (timeout dl : Nat) (acc : List TaskId) (t : TaskId)
    (hb : s.barriers = [(name, ⟨acc ++ [t], acc, acc, dl, none⟩)]) :
    barrierAsync s now name t timeout (acc ++ [t]) =
      ({ s with barriers :=
          [(name, ⟨acc ++ [t], acc ++ [t], [], dl, some .passed⟩)] },
       (acc ++ [t]).map fun u => ⟨u, name, .passed⟩) := by
  have hall : (acc ++ [t]).all (fun x => decide (x ∈ acc ++ [t])) = true := by
    rw [List.all_eq_true]
    intro x hx
    simpa using hx
  unfold barrierAsync
  rw [hb]
  simp [findBarrier, hall, setBarrier]
  intro x hx hnx
  exact absurd hx hnx

theorem barrierAsync_resolved (s : ServiceState) (now : Nat) (name : String)
    (timeout : Nat) (ps : List TaskId) (t : TaskId) (b : Barrier)
    (r : BarrierResult) (hfind : findBarrier name s.barriers = some b)
    (hr : b.result = some r) :
    barrierAsync s now name t timeout ps = (s, [⟨t, name, r⟩]) := by
  unfold barrierAsync
  rw [hfind]
  simp [hr]

theorem processCalls_append (now : Nat) (name : String) (timeout : Nat)
    (ps : List TaskId) :
    ∀ (l1 l2 : List TaskId) (s : ServiceState),
      processCalls now name timeout ps s (l1 ++ l2) =
        ((processCalls now name timeout ps
            (processCalls now name timeout ps s l1).1 l2).1,
         (processCalls now name timeout ps s l1).2 ++
           (processCalls now name timeout ps
             (processCalls now name timeout ps s l1).1 l2).2) := by
  intro l1
  induction l1 with
  | nil => intro l2 s; simp [processCalls]
  | cons t l1 ih =>
    intro l2 s
    simp only [List.cons_append, processCalls]
    simp [List.append_eq, ih, List.append_assoc]

theorem processCalls_resolved (now : Nat) (name : String) (timeout : Nat)
    (ps : List TaskId) (b : Barrier) (r : BarrierResult)
    (hr : b.result = some r) :
    ∀ (late : List TaskId) (s : ServiceState),
      findBarrier name s.barriers = some b →
      processCalls now name timeout ps s late =
        (s, late.map fun t => ⟨t, name, r⟩) := by
  intro late
  induction late with
  | nil => intro s _; simp [processCalls]
  | cons t late ih =>
    intro s hfind
    have hstep := barrierAsync_resolved s now name timeout ps t b r hfind hr
    simp only [processCalls]
    rw [hstep]
    simp [ih s hfind]

theorem nodup_no_early_repeat (acc mid rest2 : List TaskId) (t w : TaskId)
    (hnd : (acc ++ (t :: mid) ++ (w :: rest2)).Nodup) : w ∉ acc ++ [t] := by
  intro hmem
  rw [List.append_assoc, List.nodup_append] at hnd
  obtain ⟨hnd1, hnd2, hdisj⟩ := hnd
  simp only [List.mem_append, List.mem_singleton] at hmem
  rcases hmem with hacc | rfl
  · exact hdisj hacc (by simp)
  · rw [List.cons_append, List.nodup_cons] at hnd2
    exact hnd2.1 (by simp)

theorem processCalls_park (now : Nat) (name : String) (timeout dl : Nat)
    (ts : List TaskId) (hnd : ts.Nodup) :
    ∀ (mid acc rest : List TaskId) (s : ServiceState),
      ts = acc ++ mid ++ rest →
      s.barriers = [(name, ⟨ts, acc, acc, dl, none⟩)] →
      rest ≠ [] →
      processCalls now name timeout ts s mid =
        ({ s with barriers :=
            [(name, ⟨ts, acc ++ mid, acc ++ mid, dl, none⟩)] },
         []) := by
  intro mid
  induction mid with
  | nil =>
    intro acc rest s hts hb hrest
    simp only [processCalls, List.append_nil]
    rw [← hb]
  | cons t mid ih =>
    intro acc rest s hts hb hrest
    obtain ⟨w, rest2, rfl⟩ : ∃ w rest2, rest = w :: rest2 := by
      cases rest with
      | nil => exact absurd rfl hrest
      | cons w rest2 => exact ⟨w, rest2, rfl⟩
    have hwts : w ∈ ts := by rw [hts]; simp
    have hwnot : w ∉ acc ++ [t] :=
      nodup_no_early_repeat acc mid rest2 t w (hts ▸ hnd)
    have hstep := barrierAsync_park s now name timeout dl ts acc t hb
      ⟨w, hwts, hwnot⟩
    have hts2 : ts = (acc ++ [t]) ++ mid ++ (w :: rest2) := by
      rw [hts]
      simp
    have hrec := ih (acc ++ [t]) (w :: rest2)
      ({ s with barriers := [(name, ⟨ts, acc ++ [t], acc ++ [t], dl, none⟩)] })
      hts2 rfl (by simp)
    simp only [processCalls]
    rw [hstep]
    simp only [hrec]
    simp

theorem processCalls_nil (now : Nat) (name : String) (timeout : Nat)
    (ps : List TaskId) (s : ServiceState) :
    processCalls now name timeout ps s [] = (s, []) := rfl

theorem processCalls_cons (now : Nat) (name : String) (timeout : Nat)
    (ps : List TaskId) (s : ServiceState) (t : TaskId) (rest : List TaskId) :
    processCalls now name timeout ps s (t :: rest) =
      ((processCalls now name timeout ps
          (barrierAsync s now name t timeout ps).1 rest).1,
       (barrierAsync s now name t timeout ps).2 ++
         (processCalls now name timeout ps
           (barrierAsync s now name t timeout ps).1 rest).2) := rfl

theorem processCalls_run (now : Nat) (name : String) (timeout dl : Nat)
    (ts : List TaskId) (hnd : ts.Nodup) :
    ∀ (mid acc : List TaskId) (s : ServiceState),
      ts = acc ++ mid →
      s.barriers = [(name, ⟨ts, acc, acc, dl, none⟩)] →
      (mid ≠ [] →
        processCalls now name timeout ts s mid =
          ({ s with barriers := [(name, ⟨ts, ts, [], dl, some .passed⟩)] },
           ts.map fun u => ⟨u, name, .passed⟩)) ∧
      (∀ k, k < mid.length →
        processCalls now name timeout ts s (mid.take k) =
          ({ s with barriers :=
              [(name, ⟨ts, acc ++ mid.take k, acc ++ mid.take k, dl,
                none⟩)] },
           [])) := by
  intro mid
  induction mid with
  | nil =>
    intro acc s hts hb
    exact ⟨fun h => absurd rfl h, fun k hk => absurd hk (by simp)⟩
  | cons t mid2 ih =>
    intro acc s hts hb
    constructor
    · intro _
      cases mid2 with
      | nil =>
        rw [hts] at hb ⊢
        rw [processCalls_cons]
        simp only [barrierAsync_final s now name timeout dl acc t hb]
        simp [processCalls_nil]
      | cons w2 mid3 =>
        have hnd2 : (acc ++ [t] ++ (w2 :: mid3)).Nodup := by
          simpa [List.append_assoc] using (hts ▸ hnd)
        have hwnot : w2 ∉ acc ++ [t] :=
          nodup_no_early_repeat acc [] mid3 t w2 hnd2
        have hstep := barrierAsync_park s now name timeout dl ts acc t hb
          ⟨w2, by rw [hts]; simp, hwnot⟩
        have hrec := (ih (acc ++ [t])
          ({ s with barriers :=
            [(name, ⟨ts, acc ++ [t], acc ++ [t], dl, none⟩)] })
          (by rw [hts]; simp) rfl).1 (by simp)
        rw [processCalls_cons]
        simp only [hstep]
        simp only [hrec]
        simp
    · intro k hk
      cases k with
      | zero =>
        simp only [List.take_zero, processCalls_nil, List.append_nil]
        rw [← hb]
      | succ k2 =>
        have hk2 : k2 < mid2.length := by simpa using hk
        obtain ⟨w2, mid3, rfl⟩ : ∃ w2 mid3, mid2 = w2 :: mid3 := by
          cases mid2 with
          | nil => simp at hk2
          | cons a b => exact ⟨a, b, rfl⟩
        have hnd2 : (acc ++ [t] ++ (w2 :: mid3)).Nodup := by
          simpa [List.append_assoc] using (hts ▸ hnd)
        have hwnot : w2 ∉ acc ++ [t] :=
          nodup_no_early_repeat acc [] mid3 t w2 hnd2
        have hstep := barrierAsync_park s now name timeout dl ts acc t hb
          ⟨w2, by rw [hts]; simp, hwnot⟩
        have hrec := (ih (acc ++ [t])
          ({ s with barriers :=
            [(name, ⟨ts, acc ++ [t], acc ++ [t], dl, none⟩)] })
          (by rw [hts]; simp) rfl).2 k2 hk2
        simp only [List.take_succ_cons]
        rw [processCalls_cons]
        simp only [hstep]
        simp only [hrec]
        simp [List.append_assoc]

/-- C2: N distinct tasks calling BarrierAsync on one barrier name with the
identical participant list: the N-th arrival resolves the barrier, every one
of the N waiters is notified "passed" exactly once, and no notification at
all is emitted while any arrival is still missing. -/
theorem barrier_c2 (now : Nat) (name : String) (timeout : Nat)
    (ts : List TaskId) (s0 : ServiceState)
    (hb : s0.barriers = []) (hnd : ts.Nodup) (hne : ts ≠ []) :
    (processCalls now name timeout ts s0 ts).2 =
      ts.map (fun t => ⟨t, name, .passed⟩) ∧
    (∀ t ∈ ts, ((processCalls now name timeout ts s0 ts).2.count
        ⟨t, name, .passed⟩) = 1) ∧
    (∀ k, k < ts.length →
      (processCalls now name timeout ts s0 (ts.take k)).2 = []) := by
  obtain ⟨t1, rest, rfl⟩ : ∃ t1 rest, ts = t1 :: rest := by
    cases ts with
    | nil => exact absurd rfl hne
    | cons a l => exact ⟨a, l, rfl⟩
  have hmain : (processCalls now name timeout (t1 :: rest) s0 (t1 :: rest)).2 =
      (t1 :: rest).map (fun t => ⟨t, name, .passed⟩) := by
    cases rest with
    | nil =>
      rw [processCalls_cons]
      have hsolo : barrierAsync s0 now name t1 timeout [t1] =
          ({ s0 with barriers :=
            [(name, ⟨[t1], [t1], [], now + timeout, some .passed⟩)] },
           [⟨t1, name, .passed⟩]) := by
        unfold barrierAsync
        rw [hb]
        simp [findBarrier, setBarrier]
      simp [hsolo, processCalls_nil]
    | cons t2 rest2 =>
      have ht21 : t2 ≠ t1 := by
        have h0 := hnd
        rw [List.nodup_cons] at h0
        intro he
        exact h0.1 (by simp [← he])
      have hstep1 := barrierAsync_first s0 now name timeout (t1 :: t2 :: rest2)
        t1 hb ⟨t2, by simp, ht21⟩
      have hrun := (processCalls_run now name timeout (now + timeout)
        (t1 :: t2 :: rest2) hnd (t2 :: rest2) [t1]
        ({ s0 with barriers :=
          [(name, ⟨t1 :: t2 :: rest2, [t1], [t1], now + timeout, none⟩)] })
        (by simp) rfl).1 (by simp)
      rw [processCalls_cons]
      simp only [hstep1]
      simp only [hrun]
      simp
  refine ⟨hmain, ?_, ?_⟩
  · intro t ht
    rw [hmain]
    have hinj : Function.Injective
        (fun t : TaskId => (⟨t, name, .passed⟩ : Notif)) := by
      intro a b hab
      simpa using congrArg Notif.task hab
    exact List.count_eq_one_of_mem (List.Nodup.map hinj hnd)
      (List.mem_map_of_mem _ ht)
  · intro k hk
    cases k with
    | zero => simp [processCalls_nil]
    | succ k2 =>
      cases rest with
      | nil => simp at hk
      | cons t2 rest2 =>
        have hk2 : k2 < (t2 :: rest2).length := by simpa using hk
        have ht21 : t2 ≠ t1 := by
          have h0 := hnd
          rw [List.nodup_cons] at h0
          intro he
          exact h0.1 (by simp [← he])
        have hstep1 := barrierAsync_first s0 now name timeout
          (t1 :: t2 :: rest2) t1 hb ⟨t2, by simp, ht21⟩
        have hpre := (processCalls_run now name timeout (now + timeout)
          (t1 :: t2 :: rest2) hnd (t2 :: rest2) [t1]
          ({ s0 with barriers :=
            [(name, ⟨t1 :: t2 :: rest2, [t1], [t1], now + timeout, none⟩)] })
          (by simp) rfl).2 k2 hk2
        simp only [List.take_succ_cons]
        rw [processCalls_cons]
        simp only [hstep1]
        simp only [hpre]
        simp

theorem barrier_c2_witness :
    (processCalls 0 "b" 10 [w0, w1] freshState [w0, w1]).2 =
      [⟨w0, "b", .passed⟩, ⟨w1, "b", .passed⟩] := by
  have h := (barrier_c2 0 "b" 10 [w0, w1] freshState rfl (by decide)
    (by decide)).1
  exact h.trans rfl

theorem sweep_singleton_timeout (s : ServiceState) (tS : Nat) (name : String)
    (b : Barrier) (hb : s.barriers = [(name, b)]) (hpend : b.result = none)
    (hdl : tS ≥ b.deadline) :
    sweep s tS =
      ({ s with tasks := sweepTasks s.livenessTimeout tS s.tasks,
                barriers := [(name, { b with result := some .failedTimeout,
                                             waiters := [] })] },
       b.waiters.map fun t => ⟨t, name, .failedTimeout⟩) := by
  have hfail : barrierShouldFail (sweepTasks s.livenessTimeout tS s.tasks)
      tS b = true := by
    unfold barrierShouldFail
    rw [hpend]
    simp [hdl]
  unfold sweep
  rw [hb]
  simp [hfail]

end CoordinationModel


namespace CoordinationModel

/-- C3: when only a proper, nonempty prefix of a barrier's participants has
arrived and the sweep runs at or past the barrier's deadline, no
notification was emitted before the sweep, the sweep notifies every parked
waiter "failed-timeout", each late arrival is answered "failed-timeout" as
well — so every participant hears "failed-timeout" — the final barrier
state holds no parked waiter, and no notification in the whole run says
"passed". -/
theorem barrier_c3 (now tS now2 : Nat) (name : String) (timeout : Nat)
    (done rest : List TaskId) (s0 : ServiceState)
    (hb : s0.barriers = []) (hnd : (done ++ rest).Nodup)
    (hdone : done ≠ []) (hrest : rest ≠ [])
    (hT : tS ≥ now + timeout) :
    (processCalls now name timeout (done ++ rest) s0 done).2 = [] ∧
    (sweep (processCalls now name timeout (done ++ rest) s0 done).1 tS).2 ++
      (processCalls now2 name timeout (done ++ rest)
        (sweep (processCalls now name timeout (done ++ rest) s0 done).1
          tS).1 rest).2 =
      (done ++ rest).map (fun t => ⟨t, name, .failedTimeout⟩) ∧
    findBarrier name
        (processCalls now2 name timeout (done ++ rest)
          (sweep (processCalls now name timeout (done ++ rest) s0 done).1
            tS).1 rest).1.barriers =
      some ⟨done ++ rest, done, [], now + timeout, some .failedTimeout⟩ ∧
    (∀ t : TaskId, Notif.mk t name .passed ∉
      (processCalls now name timeout (done ++ rest) s0 done).2 ++
        ((sweep (processCalls now name timeout (done ++ rest) s0 done).1
            tS).2 ++
          (processCalls now2 name timeout (done ++ rest)
            (sweep (processCalls now name timeout (done ++ rest) s0 done).1
              tS).1 rest).2)) := by
  obtain ⟨d1, done2, rfl⟩ : ∃ d1 done2, done = d1 :: done2 := by
    cases done with
    | nil => exact absurd rfl hdone
    | cons a l => exact ⟨a, l, rfl⟩
  obtain ⟨u1, rest2, rfl⟩ : ∃ u1 rest2, rest = u1 :: rest2 := by
    cases rest with
    | nil => exact absurd rfl hrest
    | cons a l => exact ⟨a, l, rfl⟩
  have hu1d1 : u1 ≠ d1 := by
    have h0 := hnd
    rw [List.cons_append, List.nodup_cons] at h0
    intro he
    exact h0.1 (by simp [← he])
  have hstep1 := barrierAsync_first s0 now name timeout
    ((d1 :: done2) ++ u1 :: rest2) d1 hb ⟨u1, by simp, hu1d1⟩
  have hpark := processCalls_park now name timeout (now + timeout)
    ((d1 :: done2) ++ u1 :: rest2) hnd done2 [d1] (u1 :: rest2)
    ({ s0 with barriers :=
      [(name, ⟨(d1 :: done2) ++ u1 :: rest2, [d1], [d1],
        now + timeout, none⟩)] })
    (by simp) rfl (by simp)
  have h1 : processCalls now name timeout ((d1 :: done2) ++ u1 :: rest2) s0
      (d1 :: done2) =
      ({ s0 with barriers :=
        [(name, ⟨(d1 :: done2) ++ u1 :: rest2, [d1] ++ done2, [d1] ++ done2,
          now + timeout, none⟩)] },
       []) := by
    rw [processCalls_cons]
    simp only [hstep1]
    simp only [hpark]
    simp
  have hsweep := sweep_singleton_timeout
    ({ s0 with barriers :=
      [(name, ⟨(d1 :: done2) ++ u1 :: rest2, [d1] ++ done2, [d1] ++ done2,
        now + timeout, none⟩)] })
    tS name
    ⟨(d1 :: done2) ++ u1 :: rest2, [d1] ++ done2, [d1] ++ done2,
      now + timeout, none⟩
    rfl rfl hT
  have hres := processCalls_resolved now2 name timeout
    ((d1 :: done2) ++ u1 :: rest2)
    ⟨(d1 :: done2) ++ u1 :: rest2, [d1] ++ done2, [],
      now + timeout, some .failedTimeout⟩
    .failedTimeout rfl (u1 :: rest2)
    ({ ({ s0 with barriers :=
        [(name, ⟨(d1 :: done2) ++ u1 :: rest2, [d1] ++ done2, [d1] ++ done2,
          now + timeout, none⟩)] } : ServiceState) with
      tasks := sweepTasks s0.livenessTimeout tS s0.tasks,
      barriers :=
        [(name, ⟨(d1 :: done2) ++ u1 :: rest2, [d1] ++ done2, [],
          now + timeout, some .failedTimeout⟩)] })
    (by simp [findBarrier])
  refine ⟨?_, ?_, ?_, ?_⟩
  · rw [h1]
  · rw [h1]
    simp only [hsweep]
    simp only [hres]
    simp
  · rw [h1]
    simp only [hsweep]
    simp only [hres]
    simp [findBarrier]
  · intro t
    rw [h1]
    simp only [hsweep]
    simp only [hres]
    simp

theorem barrier_c3_witness :
    (sweep (processCalls 0 "b" 10 [w0, w1] freshState [w0]).1 10).2 ++
      (processCalls 11 "b" 10 [w0, w1]
        (sweep (processCalls 0 "b" 10 [w0, w1] freshState [w0]).1 10).1
        [w1]).2 =
      [⟨w0, "b", .failedTimeout⟩, ⟨w1, "b", .failedTimeout⟩] := by
  have h := (barrier_c3 0 10 11 "b" 10 [w0] [w1] freshState rfl (by decide)
    (by decide) (by decide) (by decide)).2.1
  exact h.trans rfl

/-- C4: two BarrierAsync calls on the same barrier name with different
participant lists within one instance: the first caller parks without any
notification, the second call resolves the barrier "failed-mismatch", both
the parked waiter and the second caller are notified "failed-mismatch", and
the barrier ends resolved "failed-mismatch" with no parked waiter. -/
theorem barrier_c4 (now now2 : Nat) (name : String) (timeout timeout2 : Nat)
    (t1 t2 : TaskId) (ts1 ts2 : List TaskId) (s0 : ServiceState)
    (hb : s0.barriers = []) (hdiff : ts2 ≠ ts1)
    (hin : ∃ w ∈ ts1, w ≠ t1) :
    (barrierAsync s0 now name t1 timeout ts1).2 = [] ∧
    (barrierAsync (barrierAsync s0 now name t1 timeout ts1).1
        now2 name t2 timeout2 ts2).2 =
      [⟨t1, name, .failedMismatch⟩, ⟨t2, name, .failedMismatch⟩] ∧
    findBarrier name
        (barrierAsync (barrierAsync s0 now name t1 timeout ts1).1
          now2 name t2 timeout2 ts2).1.barriers =
      some ⟨ts1, [t1], [], now + timeout, some .failedMismatch⟩ := by
  have hstep1 := barrierAsync_first s0 now name timeout ts1 t1 hb hin
  have hstep2 : barrierAsync
      ({ s0 with barriers :=
        [(name, ⟨ts1, [t1], [t1], now + timeout, none⟩)] })
      now2 name t2 timeout2 ts2 =
      ({ s0 with barriers :=
        [(name, ⟨ts1, [t1], [], now + timeout, some .failedMismatch⟩)] },
       [⟨t1, name, .failedMismatch⟩, ⟨t2, name, .failedMismatch⟩]) := by
    unfold barrierAsync
    simp [findBarrier, hdiff, setBarrier]
  refine ⟨?_, ?_, ?_⟩
  · rw [hstep1]
  · simp only [hstep1]
    simp only [hstep2]
  · simp only [hstep1]
    simp only [hstep2]
    simp [findBarrier]

theorem barrier_c4_witness :
    (barrierAsync (barrierAsync freshState 0 "b" w0 10 [w0, w1]).1
        1 "b" w1 10 [w0, w1, w2]).2 =
      [⟨w0, "b", .failedMismatch⟩, ⟨w1, "b", .failedMismatch⟩] :=
  (barrier_c4 0 1 "b" 10 10 w0 w1 [w0, w1] [w0, w1, w2] freshState rfl
    (by decide) ⟨w1, by decide, by decide⟩).2.1

end CoordinationModel